import Mathlib

/-!
Verification of the file-selection engine of the send-my-project-to-llm
command-line tool.  The definitions below are a shallow embedding of the
source program: the glob matcher models the minimatch library as the
program invokes it (with the dot option enabled), the ignore-rule matcher
models the ignore library used for the root .gitignore file, and the
walker, aggregator and argument validation are translated directly from
the source.  Paths are represented as lists of slash-separated segments;
absolute paths carry a leading empty segment, exactly as splitting the
absolute path string on the separator produces.
-/

namespace SendProject

/-! ### String utilities

Kernel-computable models of the string operations the source relies on
(String.prototype.split, startsWith, endsWith, trim); they are defined
over the underlying character lists so that concrete runs of the program
model can be evaluated inside proofs. -/

/-- Splitting of a character list on a separator character, as the
JavaScript split function behaves for a one-character separator: the
empty input yields one empty field, and adjacent separators yield empty
fields. -/
def splitOnChar (sep : Char) : List Char → List String
  | [] => [""]
  | c :: cs =>
    if c = sep then "" :: splitOnChar sep cs
    else
      match splitOnChar sep cs with
      | [] => [String.mk [c]]
      | s :: rest => String.mk (c :: s.data) :: rest

/-- Splitting of a path or pattern string into slash-separated segments. -/
def splitPath (s : String) : List String :=
  splitOnChar '/' s.data

/-- Test for a given first character (model of startsWith for a
one-character prefix). -/
def headIs (c : Char) (s : String) : Bool :=
  match s.data with
  | [] => false
  | d :: _ => d = c

/-- Test for a given last character (model of endsWith for a
one-character suffix). -/
def lastIs (c : Char) (s : String) : Bool :=
  match s.data.getLast? with
  | none => false
  | some d => d = c

/-- Suffix test on strings (model of endsWith). -/
def strEndsWith (s suffix : String) : Bool :=
  List.isSuffixOf suffix.data s.data

/-- Removal of the first character of a string. -/
def dropHead (s : String) : String :=
  String.mk (s.data.drop 1)

/-- Removal of the last character of a string. -/
def dropLastChar (s : String) : String :=
  String.mk (s.data.dropLast)

/-- Test that a string trims to the empty string, the condition the
validation code applies to the directory argument. -/
def isBlank (s : String) : Bool :=
  s.data.all Char.isWhitespace

/-! ### Glob matching

Model of the minimatch library as the program calls it, with the dot
option enabled, for the pattern features the program and its built-in
exclusion list use: literal characters, the one-segment wildcard star,
the one-character wildcard, and the cross-segment double-star segment. -/

/-- Helper realising the behaviour of a star: the continuation is tried
on every suffix of the input, which lets the star absorb any run of
leading elements. -/
def starLoop {α : Type} (f : List α → Bool) : List α → Bool
  | [] => f []
  | c :: cs => f (c :: cs) || starLoop f cs

/-- Matching of one slash-free pattern segment against one path segment,
character by character: a star matches any run of characters (with the
dot option enabled there is no special case for leading dots), a
question mark matches exactly one character, and any other character
matches itself. -/
def globSegMatch : List Char → List Char → Bool
  | [], cs => cs.isEmpty
  | '*' :: ps, cs => starLoop (fun cs2 => globSegMatch ps cs2) cs
  | '?' :: ps, cs =>
    match cs with
    | [] => false
    | _ :: cs2 => globSegMatch ps cs2
  | p :: ps, cs =>
    match cs with
    | [] => false
    | c :: cs2 => (p = c) && globSegMatch ps cs2

/-- Helper realising the swallow loop of a non-final double-star
segment: the continuation is tried on every non-empty suffix of the
input, mirroring the loop bound of the library, which never recurses on
an exhausted path. -/
def starLoopTail {α : Type} (f : List α → Bool) : List α → Bool
  | [] => false
  | c :: cs => f (c :: cs) || starLoopTail f cs

/-- Matching of a list of pattern segments against a list of path
segments, following the match-one loop of minimatch: a final
double-star pattern segment matches the rest of the path provided at
least one segment remains (the library reaches its final-globstar case
only while path segments are left, so a pattern like a slash
double-star does not match the bare directory itself), a non-final
double-star lets the remaining pattern match at any non-empty suffix of
the remaining path, and every other pattern segment must match exactly
one path segment; pattern segments left over once the path is
exhausted make the match fail. -/
def globMatch : List String → List String → Bool
  | [], segs => segs.isEmpty
  | p :: ps, segs =>
    if p = "**" then
      match segs, ps with
      | [], _ => false
      | _ :: _, [] => true
      | s :: rest, _ :: _ => starLoopTail (fun z => globMatch ps z) (s :: rest)
    else
      match segs with
      | [] => false
      | s :: rest => globSegMatch p.data s.data && globMatch ps rest

/-- Matching of a path, given as its list of segments, against a glob
pattern string, as the program calls minimatch with the dot option. -/
def minimatchSegs (segs : List String) (pattern : String) : Bool :=
  globMatch (splitPath pattern) segs

/-! ### Ignore-file rules

Model of the ignore library for the rule forms exercised here: comment
and blank lines are dropped, a leading exclamation mark negates a rule,
a leading slash or an inner slash anchors a rule at the root, a trailing
slash restricts a rule to directories, and a rule that matches a
directory also matches everything below it.  The ignores test applies
the rules in order and the last matching rule wins. -/

/-- Parsed ignore-file rule: the pattern body and the negation flag. -/
structure IgnoreRule where
  negative : Bool
  pattern : String
deriving Repr, DecidableEq

/-- Parsing of one non-comment ignore-file line. -/
def parseRule (line : String) : IgnoreRule :=
  if headIs '!' line then { negative := true, pattern := dropHead line }
  else { negative := false, pattern := line }

/-- Parsing of the full text of an ignore file into its rule list,
dropping blank lines and comment lines. -/
def parseGitignore (content : String) : List IgnoreRule :=
  ((splitOnChar '\n' content.data).filter
    (fun l => !(l == "") && !headIs '#' l)).map parseRule

/-- Anchored matching of ignore-rule pattern segments against a path:
the pattern must cover a leading run of whole segments, the rest of the
path (the contents of a matched directory) being unconstrained; a
directory-only rule requires the matched run to be a proper prefix. -/
def gitMatchHere (ps : List String) (dirOnly : Bool) (segs : List String) : Bool :=
  (List.range (segs.length + 1)).any fun k =>
    globMatch ps (segs.take k) && (!dirOnly || decide (k < segs.length))

/-- Matching of one ignore rule against a path given by its segments:
rules containing a slash are anchored at the root, other rules may match
starting at any depth. -/
def ruleMatches (r : IgnoreRule) (segs : List String) : Bool :=
  let p1 := r.pattern
  let dirOnly := lastIs '/' p1
  let p2 := if dirOnly then dropLastChar p1 else p1
  let anchored := headIs '/' p2 || decide ((splitPath p2).length > 1)
  let p3 := if headIs '/' p2 then dropHead p2 else p2
  let ps := splitPath p3
  if anchored then gitMatchHere ps dirOnly segs
  else (List.range (segs.length + 1)).any fun i => gitMatchHere ps dirOnly (segs.drop i)

/-- The ignores test of the ignore library: the rules are applied in
order and the last rule that matches decides, a negated rule clearing
the ignored state and a plain rule setting it. -/
def ignoresPath (rules : List IgnoreRule) (segs : List String) : Bool :=
  rules.foldl (fun acc r => if ruleMatches r segs then !r.negative else acc) false

/-! ### Program configuration -/

/-- The built-in exclusion list of the program, verbatim. -/
def builtInExclusions : List String := [
    "**/node_modules/**",
    "**/__pycache__/**",
    "**/.git/**",
    "**/.idea/**",
    "**/.vscode/**",
    "**/.github/**",
    "**/.gitlab/**",
    "**/dist/**",
    "**/build/**",
    "**/out/**",
    "**/target/**",
    "**/bin/**",
    "**/obj/**",
    "**/tmp/**",
    "**/temp/**",
    "**/package-lock.json",
    "**/yarn.lock",
    "**/pnpm-lock.yaml",
    "**/.env",
    "**/.env.*",
    "**/.DS_Store",
    "**/coverage/**",
    "**/.next/**",
    "**/.nuxt/**",
    "**/vendor/**",
    "**/*.min.js",
    "**/*.min.css",
    "**/Thumbs.db",
    "**/.sass-cache/**",
    "**/bower_components/**",
    "**/.cache/**",
    "**/logs/**",
    "**/*.log",
    "**/zz_*.go"]

/-- The directory names the built-in list excludes through a pattern of
the shape double-star, name, double-star. -/
def builtInDirNames : List String := [
    "node_modules", "__pycache__", ".git", ".idea", ".vscode", ".github",
    ".gitlab", "dist", "build", "out", "target", "bin", "obj", "tmp",
    "temp", "coverage", ".next", ".nuxt", "vendor", ".sass-cache",
    "bower_components", ".cache", "logs"]

/-- Resolved configuration of one invocation: the resolved root
directory and the current working directory as absolute paths (whose
segment lists start with the empty segment the leading separator
produces), the extension list, the include list, the user exclusion
list, and the prompt flag. -/
structure Config where
  rootDir : List String
  cwd : List String
  extensions : List String
  includeFiles : List String
  userExclusions : List String
  includePrompt : Bool
deriving Repr, DecidableEq

/-- Combined exclusion pattern list: built-in patterns first, user
patterns appended after them. -/
def excludePatterns (cfg : Config) : List String :=
  builtInExclusions ++ cfg.userExclusions

/-- Test of the combined glob patterns against a relative path, as the
program runs minimatch over every pattern with the dot option. -/
def matchedByCustomPattern (cfg : Config) (rel : List String) : Bool :=
  (excludePatterns cfg).any fun pattern => minimatchSegs rel pattern

/-- Exclusion decision of the program: a relative path is excluded when
a combined glob pattern matches it or when the loaded ignore-file rules
ignore it. -/
def matchesExclusion (cfg : Config) (rules : List IgnoreRule) (rel : List String) : Bool :=
  matchedByCustomPattern cfg rel || ignoresPath rules rel

/-! ### Filesystem snapshot -/

/-- Snapshot of a filesystem subtree: a regular file carries its
content, or no content when reading it fails; a directory carries its
child entries in enumeration order, with a flag that is false when
listing it fails; any other entry kind (symbolic link, device) is
recorded as such. -/
inductive FSEntry where
  | file (name : String) (content : Option String)
  | dir (name : String) (listable : Bool) (children : List FSEntry)
  | other (name : String)
deriving Repr

/-- Name of a directory entry. -/
def fsName : FSEntry → String
  | .file n _ => n
  | .dir n _ _ => n
  | .other n => n

/-- Diagnostics the program prints on its error stream while walking:
a failed directory listing or a failed file read, recorded with the
relative path it concerns. -/
inductive LogEvent where
  | readdirError (rel : List String)
  | readError (rel : List String)
deriving Repr, DecidableEq

/-! ### Selection and aggregation -/

/-- Resolution of a path string against a base directory, as the
path-resolve routine behaves for the already-normalised inputs the
program hands it: an absolute string stands alone, any other string is
appended to the base. -/
def resolvePath (base : List String) (p : String) : List String :=
  if headIs '/' p then splitPath p else base ++ splitPath p

/-- Extension admission test: the entry name must end with one of the
configured extensions. -/
def matchesExtension (cfg : Config) (name : String) : Bool :=
  cfg.extensions.any fun ext => strEndsWith name ext

/-- Include admission test, translated from the source: for each include
pattern the absolute path of the entry (the parent path joined with the
entry name) is compared for equality with the pattern resolved against
the current working directory, or matched by minimatch against the
pattern.  Note that the test runs on the absolute path, not on the
root-relative path. -/
def matchesInclude (cfg : Config) (rel : List String) : Bool :=
  cfg.includeFiles.any fun pattern =>
    decide (cfg.rootDir ++ rel = resolvePath cfg.cwd pattern) ||
      minimatchSegs (cfg.rootDir ++ rel) pattern

/-- Output block of one successfully read file: a leading line break,
the header with the relative path, a blank line, the raw content and a
trailing line break. -/
def fileBlock (rel : List String) (content : String) : String :=
  "\n=== " ++ String.intercalate "/" rel ++ " ===\n\n" ++ content ++ "\n"

/-- Aggregation step for one admitted file: a readable file contributes
its block, an unreadable file contributes nothing and logs a read
error. -/
def appendFileContent (rel : List String) (content : Option String) : String × List LogEvent :=
  match content with
  | some c => (fileBlock rel c, [])
  | none => ("", [LogEvent.readError rel])

mutual

/-- Processing of one directory entry whose root-relative path is rel,
translated from the loop body of the walker: an entry matching an
exclusion is skipped outright; a directory is recursed into, a failed
listing being logged and skipped; a regular file passing the extension
or include test is aggregated; every other entry kind is skipped. -/
def walkEntry (cfg : Config) (rules : List IgnoreRule) (rel : List String) (e : FSEntry) :
    String × List LogEvent :=
  if matchesExclusion cfg rules rel then ("", [])
  else
    match e with
    | .dir _ listable children =>
      if listable then walkList cfg rules rel children
      else ("", [LogEvent.readdirError rel])
    | .file name content =>
      if matchesExtension cfg name || matchesInclude cfg rel then
        appendFileContent rel content
      else ("", [])
    | .other _ => ("", [])

/-- Processing of the listed entries of a directory whose root-relative
path is rel, in enumeration order, concatenating the collected content
and the logged diagnostics. -/
def walkList (cfg : Config) (rules : List IgnoreRule) (rel : List String) (es : List FSEntry) :
    String × List LogEvent :=
  match es with
  | [] => ("", [])
  | e :: rest =>
    let r1 := walkEntry cfg rules (rel ++ [fsName e]) e
    let r2 := walkList cfg rules rel rest
    (r1.1 ++ r2.1, r1.2 ++ r2.2)

end

/-- Entry point of the walk: the root directory is listed without any
exclusion check; a root that cannot be listed (or is not a directory)
only logs an error. -/
def findAndPrintFiles (cfg : Config) (rules : List IgnoreRule) (root : FSEntry) :
    String × List LogEvent :=
  match root with
  | .dir _ true children => walkList cfg rules [] children
  | _ => ("", [LogEvent.readdirError []])

/-- The fixed introductory sentence the prompt flag prepends. -/
def promptSentence : String :=
  "This is my project, just reply ack when you receive this project, I will give you further instructions soon."

/-- Final artifact of a run: the collected content, preceded by the
prompt sentence and two line breaks when the prompt flag is set. -/
def programOutput (cfg : Config) (rules : List IgnoreRule) (root : FSEntry) : String :=
  let collected := (findAndPrintFiles cfg rules root).1
  if cfg.includePrompt then promptSentence ++ "\n\n" ++ collected else collected

mutual

/-- Admitted files below one directory entry: the ordered list of pairs
of root-relative path and content of every file the walker admits and
reads successfully, derived step for one entry. -/
def admittedEntry (cfg : Config) (rules : List IgnoreRule) (rel : List String) (e : FSEntry) :
    List (List String × String) :=
  if matchesExclusion cfg rules rel then []
  else
    match e with
    | .dir _ listable children =>
      if listable then admittedList cfg rules rel children else []
    | .file name content =>
      if matchesExtension cfg name || matchesInclude cfg rel then
        match content with
        | some c => [(rel, c)]
        | none => []
      else []
    | .other _ => []

/-- Admitted files of a list of directory entries, in enumeration
order. -/
def admittedList (cfg : Config) (rules : List IgnoreRule) (rel : List String) (es : List FSEntry) :
    List (List String × String) :=
  match es with
  | [] => []
  | e :: rest =>
    admittedEntry cfg rules (rel ++ [fsName e]) e ++ admittedList cfg rules rel rest

end

/-- Admitted files of a whole run. -/
def admittedFiles (cfg : Config) (rules : List IgnoreRule) (root : FSEntry) :
    List (List String × String) :=
  match root with
  | .dir _ true children => admittedList cfg rules [] children
  | _ => []

/-! ### Command line and start-up -/

/-- Parsed command-line arguments before validation: the repeatable
options are absent or given lists, mirroring the yargs option values the
check callback receives. -/
structure Args where
  dir : Option String
  ext : Option (List String)
  includeArg : Option (List String)
  excludeArg : Option (List String)
  promptFlag : Bool
deriving Repr, DecidableEq

/-- Validation of the arguments, translated from the yargs check
callback (a missing required directory option is refused by yargs
itself): a blank directory, the absence of both extensions and
includes, and an extension lacking its leading dot each abort with a
message. -/
def checkArgs (args : Args) : Except String Unit :=
  match args.dir with
  | none => .error "Missing required argument: dir"
  | some d =>
    if isBlank d then .error "You must provide a valid directory path."
    else if (args.ext.getD []).length = 0 && (args.includeArg.getD []).length = 0 then
      .error "You must provide at least one extension (--ext) or filename (--include)."
    else
      match (args.ext.getD []).find? (fun e => !headIs '.' e) with
      | some bad =>
        .error ("Invalid extension \"" ++ bad ++ "\". Extensions should start with a \x27.\x27")
      | none => .ok ()

/-- Outcome of reading the ignore file at the root: its content, or the
not-found condition, or another read failure (which the program reports
as a warning). -/
inductive GitignoreRead where
  | found (content : String)
  | notFound
  | failed (msg : String)
deriving Repr, DecidableEq

/-- Rule set the program proceeds with: the parsed content when the
ignore file was read, and the empty rule set on any read failure. -/
def loadIgnoreRules : GitignoreRead → List IgnoreRule
  | .found c => parseGitignore c
  | .notFound => []
  | .failed _ => []

/-- Construction of the resolved configuration from validated
arguments and the current working directory. -/
def configOf (cwd : List String) (d : String) (args : Args) : Config :=
  { rootDir := resolvePath cwd d
    cwd := cwd
    extensions := args.ext.getD []
    includeFiles := args.includeArg.getD []
    userExclusions := args.excludeArg.getD []
    includePrompt := args.promptFlag }

/-- Whole-run model: validation happens first and its failure aborts
with the message before the ignore file or the tree is touched;
otherwise the ignore rules are loaded, the tree is walked and the final
artifact is produced. -/
def mainModel (cwd : List String) (args : Args) (g : GitignoreRead) (root : FSEntry) :
    Except String String :=
  match checkArgs args with
  | .error m => .error m
  | .ok _ =>
    match args.dir with
    | some d => .ok (programOutput (configOf cwd d args) (loadIgnoreRules g) root)
    | none => .error "Missing required argument: dir"

/-! ### Derived notions used by the statements -/

/-- Concatenation of the output blocks of a list of admitted files, in
order and with no separator beyond what each block carries. -/
def joinBlocks : List (List String × String) → String
  | [] => ""
  | q :: qs => fileBlock q.1 q.2 ++ joinBlocks qs

/-! ### Concrete scenarios referenced by the statements and witnesses -/

/-- Configuration of scenario runs: root directory and working
directory both resolved to the same absolute path, one extension. -/
def cfgW4 : Config :=
  { rootDir := ["", "r"], cwd := ["", "r"], extensions := [".js"], includeFiles := [],
    userExclusions := [], includePrompt := false }

/-- Snapshot with one admitted file inside a subdirectory. -/
def fsW4 : FSEntry :=
  .dir "r" true [.dir "sub" true [.file "a.js" (some "x")]]

/-- Configuration for the include-name scenario: no extensions, the
single include name Dockerfile, working directory equal to the root. -/
def cfgC1 : Config :=
  { rootDir := ["", "r"], cwd := ["", "r"], extensions := [], includeFiles := ["Dockerfile"],
    userExclusions := [], includePrompt := false }

/-- The same configuration invoked from a different working
directory. -/
def cfgC1b : Config :=
  { cfgC1 with cwd := ["", "elsewhere"] }

/-- Snapshot whose only file is a Dockerfile inside a subdirectory. -/
def fsC1 : FSEntry :=
  .dir "r" true [.dir "sub" true [.file "Dockerfile" (some "FROM node")]]

/-- Snapshot whose only file is a Dockerfile at the root. -/
def fsC1b : FSEntry :=
  .dir "r" true [.file "Dockerfile" (some "FROM node")]

/-- Configuration for the ignore-file negation scenario: the log
extension is configured, so the two log files satisfy extension
admission. -/
def cfgC2 : Config :=
  { rootDir := ["", "r"], cwd := ["", "r"], extensions := [".log"], includeFiles := [],
    userExclusions := [], includePrompt := false }

/-- The ignore-file of the negation law: every log file is ignored,
then one is negated back. -/
def rulesC2 : List IgnoreRule :=
  parseGitignore "*.log\n!keep.log"

/-- Snapshot with the two log files of the negation law at the root. -/
def fsC2 : FSEntry :=
  .dir "r" true [.file "keep.log" (some "K"), .file "other.log" (some "O")]

/-- Arguments with neither extensions nor includes. -/
def argsN : Args :=
  { dir := some "./", ext := none, includeArg := none, excludeArg := none, promptFlag := false }

/-- Valid arguments: a directory and one extension. -/
def argsOk : Args :=
  { argsN with ext := some [".js"] }

/-- Configuration whose root directory is itself named node_modules. -/
def cfgC10 : Config :=
  { rootDir := ["", "p", "node_modules"], cwd := ["", "p", "node_modules"],
    extensions := [".js"], includeFiles := [], userExclusions := [], includePrompt := false }

/-- Failures of the argument validation, as the check callback tests
them: a missing directory, a blank directory, the absence of both
extensions and includes, or an extension lacking its leading dot. -/
def invalidArgs (args : Args) : Prop :=
  args.dir = none ∨ (∃ d, args.dir = some d ∧ isBlank d = true) ∨
    (args.ext.getD [] = [] ∧ args.includeArg.getD [] = []) ∨
    (∃ e ∈ args.ext.getD [], headIs '.' e = false)

/-! ### Helper lemmas -/

/-- Concatenation of block lists distributes over list append. -/
theorem joinBlocks_append (l1 l2 : List (List String × String)) :
    joinBlocks (l1 ++ l2) = joinBlocks l1 ++ joinBlocks l2 := by
  induction l1 with
  | nil => simp [joinBlocks]
  | cons q qs ih => simp [joinBlocks, ih, String.append_assoc]

mutual

/-- Content collected below one entry is the concatenation of the
blocks of the files admitted below it. -/
theorem walkEntry_content (cfg : Config) (rules : List IgnoreRule) (rel : List String)
    (e : FSEntry) :
    (walkEntry cfg rules rel e).1 = joinBlocks (admittedEntry cfg rules rel e) := by
  rw [walkEntry.eq_def, admittedEntry.eq_def]
  by_cases hx : matchesExclusion cfg rules rel = true
  · simp [hx, joinBlocks]
  · simp only [Bool.not_eq_true] at hx
    simp only [hx, Bool.false_eq_true, if_false]
    cases e with
    | dir n listable children =>
      cases listable with
      | true => simpa using walkList_content cfg rules rel children
      | false => simp [joinBlocks]
    | file n c =>
      by_cases ha : (matchesExtension cfg n || matchesInclude cfg rel) = true
      · simp only [ha, if_true]
        cases c with
        | some s => simp [appendFileContent, joinBlocks]
        | none => simp [appendFileContent, joinBlocks]
      · simp only [Bool.not_eq_true] at ha
        simp [ha, joinBlocks]
    | other n => simp [joinBlocks]

/-- Content collected over a list of entries is the concatenation of
the blocks of the files admitted below them. -/
theorem walkList_content (cfg : Config) (rules : List IgnoreRule) (rel : List String)
    (es : List FSEntry) :
    (walkList cfg rules rel es).1 = joinBlocks (admittedList cfg rules rel es) := by
  cases es with
  | nil => simp [walkList.eq_def, admittedList.eq_def, joinBlocks]
  | cons e rest =>
    rw [walkList.eq_def, admittedList.eq_def]
    simp only [joinBlocks_append]
    rw [walkEntry_content cfg rules (rel ++ [fsName e]) e, walkList_content cfg rules rel rest]

end

/-- The final artifact is the optional prompt followed by the admitted
blocks in admission order. -/
theorem programOutput_blocks (cfg : Config) (rules : List IgnoreRule) (root : FSEntry) :
    programOutput cfg rules root =
      (if cfg.includePrompt then promptSentence ++ "\n\n" else "") ++
        joinBlocks (admittedFiles cfg rules root) := by
  unfold programOutput findAndPrintFiles admittedFiles
  cases root with
  | dir n listable children =>
    cases listable with
    | true =>
      rw [walkList_content]
      cases cfg.includePrompt <;> simp [String.append_assoc]
    | false => cases cfg.includePrompt <;> simp [joinBlocks]
  | file n c => cases cfg.includePrompt <;> simp [joinBlocks]
  | other n => cases cfg.includePrompt <;> simp [joinBlocks]

/-- A continuation that accepts some non-empty input makes the swallow
loop succeed after any absorbed prefix. -/
theorem starLoopTail_append {α : Type} (f : List α → Bool) (pre : List α) (c : α)
    (cs : List α) (h : f (c :: cs) = true) : starLoopTail f (pre ++ c :: cs) = true := by
  induction pre with
  | nil => simp [starLoopTail, h]
  | cons a pre ih => simp [starLoopTail, ih]

/-- Unfolding of the matcher at a non-final double-star over a
non-empty path. -/
theorem globMatch_globstar_cons (p2 : String) (ps : List String) (z : String)
    (zs : List String) :
    globMatch ("**" :: p2 :: ps) (z :: zs) =
      starLoopTail (fun r => globMatch (p2 :: ps) r) (z :: zs) := rfl

/-- A non-final double-star segment absorbs any run of path segments in
front of a match of the remaining pattern on a non-empty suffix. -/
theorem globMatch_globstar (p2 : String) (ps : List String) (pre : List String)
    (s : String) (rest : List String) (h : globMatch (p2 :: ps) (s :: rest) = true) :
    globMatch ("**" :: p2 :: ps) (pre ++ s :: rest) = true := by
  have hloop : starLoopTail (fun r => globMatch (p2 :: ps) r) (pre ++ s :: rest) = true :=
    starLoopTail_append _ pre s rest h
  cases pre with
  | nil =>
    rw [List.nil_append] at hloop ⊢
    rw [globMatch_globstar_cons]
    exact hloop
  | cons a t =>
    rw [List.cons_append] at hloop ⊢
    rw [globMatch_globstar_cons]
    exact hloop

/-- A pattern consisting of one final double-star accepts any one
remaining segment. -/
theorem globMatch_trailing_one (next : String) : globMatch ["**"] [next] = true := rfl

/-- Every name in the built-in directory list is covered by a built-in
pattern of the shape double-star, name, double-star, matches itself
literally, and is not itself the double-star token. -/
theorem builtInDirNames_spec :
    ∀ X ∈ builtInDirNames, ∃ pat ∈ builtInExclusions,
      splitPath pat = ["**", X, "**"] ∧ globSegMatch X.data X.data = true ∧ X ≠ "**" := by
  decide

/-- The middle of a built-in directory pattern matches the directory
name followed by one further segment. -/
theorem globMatch_name_globstar (X : String) (hne : X ≠ "**")
    (hself : globSegMatch X.data X.data = true) (next : String) :
    globMatch [X, "**"] [X, next] = true := by
  simp [globMatch, hne, hself, globMatch_trailing_one]

/-- Any relative path holding a built-in directory name in non-final
position matches the combined glob patterns, whatever lies around it:
the built-in double-star pattern for that name fires one level below
the directory. -/
theorem matchedBuiltin (cfg : Config) (pre : List String) (X next : String)
    (hX : X ∈ builtInDirNames) : matchedByCustomPattern cfg (pre ++ [X, next]) = true := by
  obtain ⟨pat, hmem, hsplit, hself, hne⟩ := builtInDirNames_spec X hX
  unfold matchedByCustomPattern excludePatterns
  apply List.any_eq_true.mpr
  refine ⟨pat, List.mem_append_left _ hmem, ?_⟩
  unfold minimatchSegs
  rw [hsplit]
  exact globMatch_globstar X ["**"] pre X [next] (globMatch_name_globstar X hne hself next)

mutual

/-- Every file admitted below an entry lies below the entry, and every
path checked on the way down to it, the entry itself included, was
found not excluded. -/
theorem admittedEntry_ancestors (cfg : Config) (rules : List IgnoreRule) (rel : List String)
    (e : FSEntry) :
    ∀ q ∈ admittedEntry cfg rules rel e, ∃ suf, q.1 = rel ++ suf ∧
      ∀ s2 s3, s2 ++ s3 = suf → matchesExclusion cfg rules (rel ++ s2) = false := by
  intro q hq
  rw [admittedEntry.eq_def] at hq
  by_cases hx : matchesExclusion cfg rules rel = true
  · simp [hx] at hq
  · simp only [Bool.not_eq_true] at hx
    simp only [hx, Bool.false_eq_true, if_false] at hq
    cases e with
    | dir n listable children =>
      cases listable with
      | true =>
        simp only [if_true] at hq
        obtain ⟨suf, _hne, hpath, hprop⟩ := admittedList_ancestors cfg rules rel children q hq
        refine ⟨suf, hpath, ?_⟩
        intro s2 s3 hs
        by_cases h2 : s2 = []
        · subst h2
          simpa using hx
        · exact hprop s2 s3 hs h2
      | false => simp at hq
    | file n c =>
      by_cases ha : (matchesExtension cfg n || matchesInclude cfg rel) = true
      · simp only [ha, if_true] at hq
        cases c with
        | some s =>
          simp only [List.mem_singleton] at hq
          subst hq
          refine ⟨[], by simp, ?_⟩
          intro s2 s3 hs
          have h2 : s2 = [] := (List.append_eq_nil.mp hs).1
          subst h2
          simpa using hx
        | none => simp at hq
      · simp only [Bool.not_eq_true] at ha
        simp [ha] at hq
    | other n => simp at hq

/-- Every file admitted below a list of entries lies strictly below the
common directory, and every non-empty path prefix leading to it was
found not excluded. -/
theorem admittedList_ancestors (cfg : Config) (rules : List IgnoreRule) (rel : List String)
    (es : List FSEntry) :
    ∀ q ∈ admittedList cfg rules rel es, ∃ suf, suf ≠ [] ∧ q.1 = rel ++ suf ∧
      ∀ s2 s3, s2 ++ s3 = suf → s2 ≠ [] → matchesExclusion cfg rules (rel ++ s2) = false := by
  intro q hq
  cases es with
  | nil => simp [admittedList.eq_def] at hq
  | cons e rest =>
    rw [admittedList.eq_def] at hq
    rcases List.mem_append.mp hq with h1 | h2
    · obtain ⟨suf0, hpath, hprop⟩ := admittedEntry_ancestors cfg rules (rel ++ [fsName e]) e q h1
      refine ⟨fsName e :: suf0, by simp, by simpa [List.append_assoc] using hpath, ?_⟩
      intro s2 s3 hs hne
      cases s2 with
      | nil => exact absurd rfl hne
      | cons a s2t =>
        have ha : a = fsName e := by
          have := congrArg (fun l => l.head?) hs
          simpa using this
        have hrest : s2t ++ s3 = suf0 := by
          have := congrArg (fun l => l.tail) hs
          simpa using this
        subst ha
        have := hprop s2t s3 hrest
        simpa [List.append_assoc] using this
    · exact admittedList_ancestors cfg rules rel rest q h2

end

/-- Every file admitted in a whole run has the property that every
non-empty prefix of its relative path, the full path included, was
found not excluded. -/
theorem admittedFiles_ancestors (cfg : Config) (rules : List IgnoreRule) (root : FSEntry) :
    ∀ q ∈ admittedFiles cfg rules root, ∀ s2 s3, s2 ++ s3 = q.1 → s2 ≠ [] →
      matchesExclusion cfg rules s2 = false := by
  intro q hq s2 s3 hs hne
  rw [admittedFiles.eq_def] at hq
  cases root with
  | dir n listable children =>
    cases listable with
    | true =>
      simp only at hq
      obtain ⟨suf, _, hpath, hprop⟩ := admittedList_ancestors cfg rules [] children q hq
      have hsuf : s2 ++ s3 = suf := by
        rw [hs, hpath]
        simp
      have := hprop s2 s3 hsuf hne
      simpa using this
    | false => simp at hq
  | file n c => simp at hq
  | other n => simp at hq

/-- Appending to the empty string is the identity. -/
theorem empty_str_append (s : String) : "" ++ s = s := by
  obtain ⟨d⟩ := s
  rfl

/-- A concatenation whose left part is non-empty is non-empty. -/
theorem str_append_ne_empty_left (a b : String) (h : a ≠ "") : a ++ b ≠ "" := by
  intro he
  apply h
  apply String.ext
  have hd := congrArg String.data he
  rw [String.data_append] at hd
  have hempty : ("" : String).data = [] := rfl
  rw [hempty] at hd
  rw [hempty]
  exact (List.append_eq_nil.mp hd).1

/-! ### Claims -/

/-- C1: the claim states that a file surviving exclusion is admitted
whenever its filename or its root-relative path matches a configured
include name, and in particular that a root containing a Dockerfile
with the include name Dockerfile yields a Dockerfile block.  The code
instead compares the absolute path of the file with the include pattern
resolved against the working directory, and glob-matches the absolute
path against the pattern: a Dockerfile in a subdirectory is never
emitted although it survives exclusion and its filename equals the
include name, and the root Dockerfile is emitted only when the working
directory happens to equal the root. -/
theorem include_admission_ignores_filename :
    matchesExclusion cfgC1 [] ["sub", "Dockerfile"] = false ∧
    programOutput cfgC1 [] fsC1 = "" ∧
    programOutput cfgC1b [] fsC1b = "" ∧
    programOutput cfgC1 [] fsC1b = "\n=== Dockerfile ===\n\nFROM node\n" := by
  refine ⟨by decide, by decide, by decide, by decide⟩

/-- C2 counterexample: with the ignore-file rules of the negation law
and the log extension configured, the file keep.log is excluded after
all and the artifact is empty, against the claim that keep.log is not
excluded and is emitted. -/
theorem keep_log_still_excluded :
    matchesExtension cfgC2 "keep.log" = true ∧
    matchesExclusion cfgC2 rulesC2 ["keep.log"] = true ∧
    programOutput cfgC2 rulesC2 fsC2 = "" := by
  refine ⟨by decide, by decide, by decide⟩

/-- C2 amended: the ignore-file check taken alone obeys the negation
law, admitting keep.log and keeping other.log excluded; but the overall
exclusion decision still excludes keep.log, because the built-in
pattern for log files matches it and a glob exclusion cannot be undone
by an ignore-file negation, so neither log file is emitted. -/
theorem negation_law_within_ignore_check :
    ignoresPath rulesC2 ["keep.log"] = false ∧
    ignoresPath rulesC2 ["other.log"] = true ∧
    "**/*.log" ∈ builtInExclusions ∧
    minimatchSegs ["keep.log"] "**/*.log" = true ∧
    matchesExclusion cfgC2 rulesC2 ["keep.log"] = true ∧
    matchesExclusion cfgC2 rulesC2 ["other.log"] = true ∧
    programOutput cfgC2 rulesC2 fsC2 = "" := by
  refine ⟨by decide, by decide, by decide, by decide, by decide, by decide, by decide⟩

/-- C3: the artifact is exactly the concatenation, in admission order
and with no other separator, of one block per admitted successfully
read file, each block being a leading line break, the header with the
relative path, a blank line, the content and a trailing line break,
the whole preceded by the prompt sentence and two line breaks when the
prompt flag is set. -/
theorem artifact_is_blocks_in_admission_order (cfg : Config) (rules : List IgnoreRule)
    (root : FSEntry) :
    programOutput cfg rules root =
      (if cfg.includePrompt then promptSentence ++ "\n\n" else "") ++
        joinBlocks (admittedFiles cfg rules root) :=
  programOutput_blocks cfg rules root

/-- C4: no admitted file lies beneath a directory bearing one of the
built-in excluded directory names: any segment of an admitted relative
path that is followed by at least one further segment is not a built-in
directory name, whatever the configuration, the ignore rules and the
tree. -/
theorem no_file_beneath_builtin_dir (cfg : Config) (rules : List IgnoreRule) (root : FSEntry)
    (q : List String × String) (hq : q ∈ admittedFiles cfg rules root)
    (pre suf : List String) (X : String) (hdecomp : q.1 = pre ++ X :: suf)
    (hne : suf ≠ []) : X ∉ builtInDirNames := by
  intro hX
  cases suf with
  | nil => exact absurd rfl hne
  | cons next suf2 =>
    have hs : (pre ++ [X, next]) ++ suf2 = q.1 := by
      rw [hdecomp]
      simp
    have hfalse := admittedFiles_ancestors cfg rules root q hq (pre ++ [X, next]) suf2 hs
      (by simp)
    have htrue : matchesExclusion cfg rules (pre ++ [X, next]) = true := by
      unfold matchesExclusion
      rw [matchedBuiltin cfg pre X next hX]
      simp
    rw [htrue] at hfalse
    cases hfalse

/-- C4 witness: a file admitted from a subdirectory, whose intermediate
directory is consequently not a built-in directory name. -/
theorem no_file_beneath_builtin_dir_witness :
    (["sub", "a.js"], "x") ∈ admittedFiles cfgW4 [] fsW4 ∧ "sub" ∉ builtInDirNames := by
  refine ⟨by decide, ?_⟩
  exact no_file_beneath_builtin_dir cfgW4 [] fsW4 (["sub", "a.js"], "x") (by decide)
    [] ["a.js"] "sub" rfl (by decide)

/-- C5: an entry whose relative path matches an exclusion is never
descended into: whatever its name, listability flag and subtree, the
walker contributes no content, logs no diagnostic (in particular no
error for unreadable entries inside it) and admits no file from it. -/
theorem excluded_dir_never_descended (cfg : Config) (rules : List IgnoreRule)
    (rel : List String) (hx : matchesExclusion cfg rules rel = true) (name : String)
    (listable : Bool) (children : List FSEntry) :
    walkEntry cfg rules rel (FSEntry.dir name listable children) = ("", []) ∧
    admittedEntry cfg rules rel (FSEntry.dir name listable children) = [] := by
  constructor
  · rw [walkEntry.eq_def]
    simp [hx]
  · rw [admittedEntry.eq_def]
    simp [hx]

/-- C5 witness: an excluded directory strictly below a node_modules
segment, holding an unreadable file and an unlistable directory,
produces no output and no error. -/
theorem excluded_dir_never_descended_witness :
    matchesExclusion cfgW4 [] ["node_modules", "sub"] = true ∧
    walkEntry cfgW4 [] ["node_modules", "sub"]
      (FSEntry.dir "sub" true [FSEntry.file "a.js" none, FSEntry.dir "x" false []]) =
      ("", []) := by
  refine ⟨by decide, ?_⟩
  exact (excluded_dir_never_descended cfgW4 [] ["node_modules", "sub"] (by decide) "sub" true
    [FSEntry.file "a.js" none, FSEntry.dir "x" false []]).1

/-- C7: an invalid configuration (missing or blank directory, neither
extensions nor includes, or an extension lacking its leading dot) makes
the program abort with a non-empty message, and the outcome is the same
whatever the ignore file and the directory tree hold, since validation
happens before any filesystem access. -/
theorem invalid_config_aborts_before_walk (args : Args) (h : invalidArgs args) :
    ∃ msg, msg ≠ "" ∧ ∀ (cwd : List String) (g : GitignoreRead) (root : FSEntry),
      mainModel cwd args g root = Except.error msg := by
  have herr : ∃ msg, msg ≠ "" ∧ checkArgs args = Except.error msg := by
    cases hdir : args.dir with
    | none =>
      refine ⟨"Missing required argument: dir", by decide, ?_⟩
      unfold checkArgs
      rw [hdir]
    | some d =>
      by_cases hblank : isBlank d = true
      · refine ⟨"You must provide a valid directory path.", by decide, ?_⟩
        unfold checkArgs
        rw [hdir]
        simp [hblank]
      · simp only [Bool.not_eq_true] at hblank
        by_cases hboth :
            ((args.ext.getD []).length = 0 && (args.includeArg.getD []).length = 0) = true
        · refine
            ⟨"You must provide at least one extension (--ext) or filename (--include).",
              by decide, ?_⟩
          unfold checkArgs
          rw [hdir]
          simp only [hblank, Bool.false_eq_true, if_false]
          rw [if_pos hboth]
        · simp only [Bool.not_eq_true] at hboth
          have hbad : ∃ e ∈ args.ext.getD [], headIs '.' e = false := by
            rcases h with h1 | ⟨d2, hd2, hblank2⟩ | ⟨hext, hinc⟩ | hb
            · rw [h1] at hdir
              cases hdir
            · rw [hd2] at hdir
              injection hdir with hdd
              subst hdd
              rw [hblank2] at hblank
              cases hblank
            · rw [hext, hinc] at hboth
              simp at hboth
            · exact hb
          obtain ⟨e, he, hdot⟩ := hbad
          have hsome : ((args.ext.getD []).find? (fun e2 => !headIs '.' e2)).isSome := by
            rw [List.find?_isSome]
            exact ⟨e, he, by simp [hdot]⟩
          obtain ⟨bad, hfind⟩ := Option.isSome_iff_exists.mp hsome
          refine ⟨"Invalid extension \"" ++ bad ++ "\". Extensions should start with a \x27.\x27",
            str_append_ne_empty_left _ _ (str_append_ne_empty_left _ _ (by decide)), ?_⟩
          unfold checkArgs
          rw [hdir]
          simp only [hblank, Bool.false_eq_true, if_false, hboth, hfind]
  obtain ⟨msg, hne, heq⟩ := herr
  refine ⟨msg, hne, fun cwd g root => ?_⟩
  unfold mainModel
  rw [heq]

/-- C7 witness: the configuration lacking both extensions and includes
aborts with its message whatever the working directory, the ignore-file
outcome and the directory tree. -/
theorem invalid_config_aborts_before_walk_witness :
    ∃ msg, msg ≠ "" ∧ ∀ (cwd : List String) (g : GitignoreRead) (root : FSEntry),
      mainModel cwd argsN g root = Except.error msg :=
  invalid_config_aborts_before_walk argsN (Or.inr (Or.inr (Or.inl ⟨rfl, rfl⟩)))

/-- Content of an unlistable directory entry: none, whether it is
excluded or its listing failed. -/
theorem walkEntry_unlistable_content (cfg : Config) (rules : List IgnoreRule)
    (rel : List String) (n : String) (children : List FSEntry) :
    (walkEntry cfg rules rel (FSEntry.dir n false children)).1 = "" := by
  rw [walkEntry.eq_def]
  by_cases hx : matchesExclusion cfg rules rel = true
  · simp [hx]
  · simp only [Bool.not_eq_true] at hx
    simp [hx]

/-- Content of an unreadable file entry: none, whether it is excluded,
not admitted, or its read failed. -/
theorem walkEntry_unreadable_content (cfg : Config) (rules : List IgnoreRule)
    (rel : List String) (n : String) :
    (walkEntry cfg rules rel (FSEntry.file n none)).1 = "" := by
  rw [walkEntry.eq_def]
  by_cases hx : matchesExclusion cfg rules rel = true
  · simp [hx]
  · simp only [Bool.not_eq_true] at hx
    by_cases ha : (matchesExtension cfg n || matchesInclude cfg rel) = true
    · simp [hx, ha, appendFileContent]
    · simp only [Bool.not_eq_true] at ha
      simp [hx, ha]

/-- Unfolding of the walk over a non-empty entry list. -/
theorem walkList_cons (cfg : Config) (rules : List IgnoreRule) (rel : List String)
    (e : FSEntry) (es : List FSEntry) :
    walkList cfg rules rel (e :: es) =
      ((walkEntry cfg rules (rel ++ [fsName e]) e).1 ++ (walkList cfg rules rel es).1,
        (walkEntry cfg rules (rel ++ [fsName e]) e).2 ++ (walkList cfg rules rel es).2) := by
  rw [walkList.eq_def]

/-- C8: local errors never abort the run: an unlistable directory at
the head of a listing contributes no content and its siblings still
contribute theirs; an unreadable file likewise; a failed ignore-file
read yields the empty rule set; and a run with arguments that pass
validation always completes with an artifact, whatever failures the
snapshot and the ignore file hold.  Only validation failures produce an
error outcome in the model (the clipboard sink lies outside it). -/
theorem local_errors_never_abort :
    (∀ (cfg : Config) (rules : List IgnoreRule) (rel : List String) (n : String)
      (children : List FSEntry) (es : List FSEntry),
      (walkList cfg rules rel (FSEntry.dir n false children :: es)).1 =
        (walkList cfg rules rel es).1) ∧
    (∀ (cfg : Config) (rules : List IgnoreRule) (rel : List String) (n : String)
      (es : List FSEntry),
      (walkList cfg rules rel (FSEntry.file n none :: es)).1 =
        (walkList cfg rules rel es).1) ∧
    (∀ msg, loadIgnoreRules (GitignoreRead.failed msg) = []) ∧
    (∀ (cwd : List String) (args : Args) (g : GitignoreRead) (root : FSEntry),
      checkArgs args = Except.ok () → ∃ s, mainModel cwd args g root = Except.ok s) := by
  refine ⟨?_, ?_, fun msg => rfl, ?_⟩
  · intro cfg rules rel n children es
    rw [walkList_cons]
    simp only [walkEntry_unlistable_content]
    exact empty_str_append _
  · intro cfg rules rel n es
    rw [walkList_cons]
    simp only [walkEntry_unreadable_content]
    exact empty_str_append _
  · intro cwd args g root hok
    unfold mainModel
    rw [hok]
    cases hdir : args.dir with
    | some d => exact ⟨_, rfl⟩
    | none =>
      unfold checkArgs at hok
      rw [hdir] at hok
      cases hok

/-- C8 witness: a concrete run with an unlistable directory, an
unreadable file and a failed ignore-file read still produces its
artifact, and the bad entries contribute nothing. -/
theorem local_errors_never_abort_witness :
    (walkList cfgW4 [] [] [FSEntry.dir "bad" false [],
      FSEntry.file "a.js" (some "x")]).1 =
      (walkList cfgW4 [] [] [FSEntry.file "a.js" (some "x")]).1 ∧
    loadIgnoreRules (GitignoreRead.failed "EACCES") = [] ∧
    ∃ s, mainModel ["", "r"] argsOk (GitignoreRead.failed "EACCES")
      (FSEntry.dir "r" true [FSEntry.file "a.js" (some "x")]) = Except.ok s :=
  ⟨local_errors_never_abort.1 cfgW4 [] [] "bad" [] _,
    local_errors_never_abort.2.2.1 "EACCES",
    local_errors_never_abort.2.2.2 ["", "r"] argsOk _ _ rfl⟩

/-- C9: the run is deterministic: two runs over equal working
directories, equal arguments, equal ignore-file outcomes and equal
snapshots produce equal outcomes, the model having no other input. -/
theorem identical_runs_identical_artifacts (cwd1 cwd2 : List String) (args1 args2 : Args)
    (g1 g2 : GitignoreRead) (root1 root2 : FSEntry) (hc : cwd1 = cwd2) (ha : args1 = args2)
    (hg : g1 = g2) (hr : root1 = root2) :
    mainModel cwd1 args1 g1 root1 = mainModel cwd2 args2 g2 root2 := by
  rw [hc, ha, hg, hr]

/-- C9 witness: a pair of identical concrete runs. -/
theorem identical_runs_identical_artifacts_witness :
    mainModel ["", "r"] argsOk GitignoreRead.notFound fsW4 =
      mainModel ["", "r"] argsOk GitignoreRead.notFound fsW4 :=
  identical_runs_identical_artifacts ["", "r"] ["", "r"] argsOk argsOk
    GitignoreRead.notFound GitignoreRead.notFound fsW4 fsW4 rfl rfl rfl rfl

/-- C10: exclusion is never applied to the root itself: the walk lists
the root unconditionally, its name playing no role in the equation, and
exclusion is consulted only on entries strictly below the root, whose
relative paths are non-empty; a root directory itself named
node_modules therefore still has its direct children considered and
admitted, while the very same subtree placed below a node_modules
subdirectory is withheld, its files matching the built-in pattern. -/
theorem root_itself_never_excluded :
    (∀ (cfg : Config) (rules : List IgnoreRule) (name : String) (children : List FSEntry),
      findAndPrintFiles cfg rules (FSEntry.dir name true children) =
        walkList cfg rules [] children) ∧
    programOutput cfgC10 []
      (FSEntry.dir "node_modules" true [FSEntry.file "a.js" (some "x")]) =
      "\n=== a.js ===\n\nx\n" ∧
    minimatchSegs ["node_modules", "a.js"] "**/node_modules/**" = true ∧
    programOutput cfgW4 []
      (FSEntry.dir "r" true
        [FSEntry.dir "node_modules" true [FSEntry.file "a.js" (some "x")]]) = "" := by
  refine ⟨fun cfg rules name children => rfl, by decide, by decide, by decide⟩

end SendProject
